import Mathlib

/-!
Verification development for the DOCX placeholder-substitution engine
(src/docx_filler.py of the job-application-agent repository).

The engine is shallowly embedded: paragraphs are ordered sequences of
inline elements (plain runs and hyperlink-wrapped runs), text is a list
of characters, and every operation of DOCXFiller that the claims touch
(_build_replacements, _replace_in_paragraph, _add_hyperlink,
fill_template) is translated into an executable Lean function.

Python-specific behaviours are modelled explicitly:
each dict is an insertion-ordered association list, negative sequence
indices and open-ended slices follow Python semantics (pyIdx,
pyDropInt), str.find is findSub, and truthiness of strings, sizes and
dicts is spelled out at each use site.

Rendered paragraph text follows python-docx: a paragraph's text is the
concatenation, in document order, of every run's full text and every
hyperlink's full text (all of its text nodes).  The character index
built by _replace_in_paragraph, by contrast, records only the first
text node of each run inside a hyperlink - the precision limit the
code comments call out.
-/

/-- Text is modelled as a list of characters (Python str). -/
abbrev Str := List Char

/-- Python s.find(sub): offset of the first occurrence, none if absent.
An empty needle is found at offset 0, as in Python. -/
def findSub (n : Str) : Str → Option Nat
  | [] => if n.isPrefixOf [] then some 0 else none
  | c :: t => if n.isPrefixOf (c :: t) then some 0 else (findSub n t).map (· + 1)

/-- Python l[i] with negative-index support; none when out of range. -/
def pyIdx (l : List α) (i : Int) : Option α :=
  if 0 ≤ i then l.get? i.toNat
  else if 0 ≤ (l.length : Int) + i then l.get? ((l.length : Int) + i).toNat
  else none

/-- Python s[i:] for a possibly negative i. -/
def pyDropInt (s : Str) (i : Int) : Str :=
  if 0 ≤ i then s.drop i.toNat
  else s.drop ((s.length : Int) + i).toNat

/-- Strict lexicographic order on char lists (Python string <). -/
def strLtB : Str → Str → Bool
  | [], [] => false
  | [], _ :: _ => true
  | _ :: _, [] => false
  | a :: as, b :: bs =>
    if a.val < b.val then true
    else if b.val < a.val then false
    else strLtB as bs

/-- Python tuple comparison on (position, placeholder, value). -/
def tupLt (x y : Nat × Str × Str) : Bool :=
  if x.1 < y.1 then true
  else if y.1 < x.1 then false
  else if strLtB x.2.1 y.2.1 then true
  else if strLtB y.2.1 x.2.1 then false
  else strLtB x.2.2 y.2.2

/-- One fold step of the minimum selection. -/
def pickStep (acc : Option (Nat × Str × Str)) (x : Nat × Str × Str) :
    Option (Nat × Str × Str) :=
  match acc with
  | none => some x
  | some a => if tupLt x a then some x else some a

/-- sorted(replacements_to_apply)[0]: the least tuple, or none for [].
A left fold that replaces the accumulator only on a strictly smaller
tuple picks exactly the element a stable sort puts first. -/
def pickMin (l : List (Nat × Str × Str)) : Option (Nat × Str × Str) :=
  l.foldl pickStep none

/-- Decimal rendering of an index, as Python f-strings produce it. -/
def natStr (n : Nat) : Str := (Nat.repr n).toList

/-- Python sep.join(xs). -/
def joinSep (sep : Str) : List Str → Str
  | [] => []
  | [x] => x
  | x :: y :: t => x ++ sep ++ joinSep sep (y :: t)

/-- The literal two-character opening of a placeholder token. -/
def lb : Str := ['\x7b', '\x7b']

/-- The literal two-character closing of a placeholder token. -/
def rb : Str := ['\x7d', '\x7d']

/-- wrap s is the placeholder token delimited by double braces. -/
def wrap (s : Str) : Str := lb ++ s ++ rb

/-- The six run-formatting attributes the engine copies between runs. -/
structure Fmt where
  name : Option Str
  size : Option Nat
  bold : Option Bool
  italic : Option Bool
  underline : Option Bool
  color : Option Str
deriving DecidableEq, Repr

/-- A formatting record with every attribute unset (a fresh w:r). -/
def Fmt.empty : Fmt :=
  { name := none, size := none, bold := none, italic := none,
    underline := none, color := none }

/-- A plain run: its text and its formatting. -/
structure Run where
  text : Str
  fmt : Fmt
deriving DecidableEq, Repr

/-- A run nested inside a hyperlink element.  Its text is kept as the
list of its w:t text nodes, because the engine indexes only the first
node while the rendered text contains them all. -/
structure HRun where
  texts : List Str
  fmt : Fmt
deriving DecidableEq, Repr

/-- A hyperlink element: relationship target and contained runs. -/
structure Hyperlink where
  url : Str
  runs : List HRun
deriving DecidableEq, Repr

/-- An inline element of a paragraph. -/
inductive Elem
  | run (r : Run)
  | hyper (h : Hyperlink)
deriving DecidableEq, Repr

/-- Element kind tag as stored in the character map. -/
inductive EKind
  | runK
  | hlK
deriving DecidableEq, Repr

/-- One entry of char_map: element index, element kind, offset. -/
structure CMEntry where
  idx : Nat
  kind : EKind
  off : Nat
deriving DecidableEq, Repr

/-- A paragraph: an opaque structural-properties block (pPr) and the
ordered inline content. -/
structure Paragraph where
  pPr : Option Str
  content : List Elem
deriving DecidableEq, Repr

/-- Full rendered text of a hyperlink: every text node of every run. -/
def hyperText (h : Hyperlink) : Str := (h.runs.map (fun r => r.texts.flatten)).flatten

/-- Text of a hyperlink as seen by the character-map builder: only the
first text node of each contained run. -/
def hyperIndexText (h : Hyperlink) : Str := (h.runs.map (fun r => r.texts.headD [])).flatten

/-- Rendered text contributed by one element (python-docx .text). -/
def elemRendered : Elem → Str
  | Elem.run r => r.text
  | Elem.hyper h => hyperText h

/-- Text of one element as recorded in the elements list built by
_replace_in_paragraph (run text, or first-node hyperlink text). -/
def elemIndexText : Elem → Str
  | Elem.run r => r.text
  | Elem.hyper h => hyperIndexText h

/-- Kind tag of an element. -/
def kindOf : Elem → EKind
  | Elem.run _ => EKind.runK
  | Elem.hyper _ => EKind.hlK

/-- Rendered text of a content sequence. -/
def contentText (c : List Elem) : Str := (c.map elemRendered).flatten

/-- paragraph.text: concatenation of all inline content in order. -/
def renderedText (p : Paragraph) : Str := contentText p.content

/-- char_map construction: one entry per character of each element's
index text, tagged with the element position and kind. -/
def charMapAux : Nat → List Elem → List CMEntry
  | _, [] => []
  | i, e :: es =>
    (List.range (elemIndexText e).length).map
      (fun off => { idx := i, kind := kindOf e, off := off }) ++ charMapAux (i + 1) es

/-- The char_map of a paragraph's element list. -/
def charMapOf (es : List Elem) : List CMEntry := charMapAux 0 es

/-- Sum of the index-text lengths of the first k elements; the code
computes this as chars_before_end. -/
def charsBefore (es : List Elem) (k : Nat) : Nat :=
  ((es.take k).map (fun e => (elemIndexText e).length)).sum


/-- A YAML value that may be either a single string or a list of
strings; the flattener checks isinstance(..., list) at use sites. -/
inductive SL
  | s (v : Str)
  | l (v : List Str)
deriving DecidableEq, Repr

/-- personal_info section; an absent optional key is none. -/
structure PersonalInfo where
  name : Option Str := none
  location : Option Str := none
  email : Option Str := none
  phone : Option Str := none
  github : Option Str := none
  linkedin : Option Str := none
deriving DecidableEq, Repr

/-- One education[] record. -/
structure Edu where
  school : Option Str := none
  institution : Option Str := none
  location : Option Str := none
  degree : Option Str := none
  date : Option Str := none
  start_date : Option Str := none
  end_date : Option Str := none
  courses : Option SL := none
deriving DecidableEq, Repr

/-- One experience[] record. -/
structure Exp where
  company : Option Str := none
  location : Option Str := none
  title : Option Str := none
  date : Option Str := none
  start_date : Option Str := none
  end_date : Option Str := none
  achievements : Option SL := none
deriving DecidableEq, Repr

/-- The skills mapping shape (Case 1 list fields and Case 2 free-text
fields may coexist; each key is optional). -/
structure Skills where
  languages : Option SL := none
  frameworks_tools : Option SL := none
  frameworks_and_tools : Option SL := none
  language_processing : Option Str := none
  data_visualization : Option Str := none
deriving DecidableEq, Repr

/-- cv_data['skills'] may fail isinstance(skills, dict). -/
inductive SkillsVal
  | dict (s : Skills)
  | other (v : Str)
deriving DecidableEq, Repr

/-- One projects[] record. -/
structure Proj where
  name : Option Str := none
  date : Option Str := none
  descriptions : Option SL := none
  description : Option SL := none
deriving DecidableEq, Repr

/-- The hierarchical candidate profile (cv_data); an absent top-level
section is none. -/
structure CvData where
  personal_info : Option PersonalInfo := none
  education : Option (List Edu) := none
  experience : Option (List Exp) := none
  skills : Option SkillsVal := none
  projects : Option (List Proj) := none
deriving DecidableEq, Repr

/-- Python truthiness of the cv_data dict: an empty dict is falsy. -/
def CvData.isEmpty (d : CvData) : Bool :=
  d.personal_info.isNone && d.education.isNone && d.experience.isNone &&
    d.skills.isNone && d.projects.isNone

/-- Truthiness of the optional cv_data argument (default None). -/
def cvTruthy : Option CvData → Bool
  | none => false
  | some d => !d.isEmpty

/-- ", ".join when the value is a list, identity on a plain string. -/
def slCommaJoin : SL → Str
  | SL.s v => v
  | SL.l xs => joinSep (", ".toList) xs

/-- Replacements contributed by personal_info. -/
def personalPart (cv : CvData) : List (Str × Str) :=
  match cv.personal_info with
  | none => []
  | some pi =>
    [ (wrap ("NAME".toList), pi.name.getD []),
      (wrap ("Name".toList), pi.name.getD []),
      (wrap ("LOCATION".toList), pi.location.getD []),
      (wrap ("EMAIL".toList), pi.email.getD []),
      (wrap ("PHONE".toList), pi.phone.getD []),
      (wrap ("GITHUB".toList), pi.github.getD []),
      (wrap ("LINKEDIN".toList), pi.linkedin.getD []) ]

/-- date, or start_date en-dash end_date when date is empty and both
bounds are present. -/
def datePick (date start_date end_date : Option Str) : Str :=
  if date.getD [] = [] ∧ start_date.isSome ∧ end_date.isSome then
    start_date.getD [] ++ " – ".toList ++ end_date.getD []
  else date.getD []

/-- Courses value: list joined with ", ", else the plain string, else
the empty string; always assigned. -/
def coursesVal (e : Edu) : Str :=
  match e.courses with
  | none => []
  | some v => slCommaJoin v

/-- Replacements for one 1-based education record. -/
def eduBlock (i : Nat) (e : Edu) : List (Str × Str) :=
  [ (wrap ("EDU_".toList ++ natStr i ++ "_SCHOOL".toList),
      match e.school with
      | some s => s
      | none => e.institution.getD []),
    (wrap ("EDU_".toList ++ natStr i ++ "_LOCATION".toList), e.location.getD []),
    (wrap ("EDU_".toList ++ natStr i ++ "_DEGREE".toList), e.degree.getD []),
    (wrap ("EDU_".toList ++ natStr i ++ "_DATE".toList),
      datePick e.date e.start_date e.end_date),
    (wrap ("EDU_".toList ++ natStr i ++ "_COURSES".toList), coursesVal e) ]

/-- Replacements contributed by education. -/
def eduPart (cv : CvData) : List (Str × Str) :=
  match cv.education with
  | none => []
  | some es => ((es.enumFrom 1).map (fun p => eduBlock p.1 p.2)).flatten

/-- Replacements for one 1-based experience record.  When
achievements is absent it defaults to the empty list, so the combined
token is still assigned the empty string; a non-list value fails the
isinstance check and contributes nothing. -/
def expBlock (i : Nat) (e : Exp) : List (Str × Str) :=
  [ (wrap ("EXP_".toList ++ natStr i ++ "_COMPANY".toList), e.company.getD []),
    (wrap ("EXP_".toList ++ natStr i ++ "_LOCATION".toList), e.location.getD []),
    (wrap ("EXP_".toList ++ natStr i ++ "_TITLE".toList), e.title.getD []),
    (wrap ("EXP_".toList ++ natStr i ++ "_DATE".toList),
      datePick e.date e.start_date e.end_date) ] ++
  (match e.achievements.getD (SL.l []) with
   | SL.l xs =>
     (xs.enumFrom 1).map
       (fun p =>
         (wrap ("EXP_".toList ++ natStr i ++ "_ACHIEVEMENT_".toList ++ natStr p.1), p.2)) ++
     [ (wrap ("EXP_".toList ++ natStr i ++ "_ACHIEVEMENTS".toList),
         joinSep ("\n".toList) xs) ]
   | SL.s _ => [])

/-- Replacements contributed by experience. -/
def expPart (cv : CvData) : List (Str × Str) :=
  match cv.experience with
  | none => []
  | some es => ((es.enumFrom 1).map (fun p => expBlock p.1 p.2)).flatten

/-- Replacements contributed by skills.  A key that is absent
contributes no tokens at all (there is no else branch in the code). -/
def skillsPart (cv : CvData) : List (Str × Str) :=
  match cv.skills with
  | none => []
  | some (SkillsVal.other _) => []
  | some (SkillsVal.dict s) =>
    (match s.languages with
     | some v =>
       [ (wrap ("SKILL_LANGUAGE".toList), slCommaJoin v),
         (wrap ("SKILLS_LANGUAGES".toList), slCommaJoin v) ]
     | none => []) ++
    (match s.frameworks_tools with
     | some v =>
       [ (wrap ("SKILL_FRAME_TOOL".toList), slCommaJoin v),
         (wrap ("SKILLS_FRAMEWORKS_TOOLS".toList), slCommaJoin v) ]
     | none =>
       match s.frameworks_and_tools with
       | some v =>
         [ (wrap ("SKILL_FRAME_TOOL".toList), slCommaJoin v),
           (wrap ("SKILLS_FRAMEWORKS_TOOLS".toList), slCommaJoin v) ]
       | none => []) ++
    (match s.language_processing with
     | some v => [ (wrap ("SKILLS_LANGUAGE_PROCESSING".toList), v) ]
     | none => []) ++
    (match s.data_visualization with
     | some v => [ (wrap ("SKILLS_DATA_VIZ".toList), v) ]
     | none => [])

/-- Replacements for one 1-based project record. -/
def projBlock (i : Nat) (p : Proj) : List (Str × Str) :=
  [ (wrap ("PROJ_".toList ++ natStr i ++ "_NAME".toList), p.name.getD []),
    (wrap ("PROJ_".toList ++ natStr i ++ "_DATE".toList), p.date.getD []) ] ++
  (let ds : SL :=
     match p.descriptions with
     | some v => v
     | none => p.description.getD (SL.l [])
   let dsl : List Str :=
     match ds with
     | SL.s v => [v]
     | SL.l xs => xs
   (dsl.enumFrom 1).map
     (fun q =>
       (wrap ("PROJ_".toList ++ natStr i ++ "_DESC_".toList ++ natStr q.1), q.2)) ++
   [ (wrap ("PROJ_".toList ++ natStr i ++ "_DESC".toList),
       if dsl.length = 1 then dsl.headD [] else joinSep ("\n".toList) dsl) ])

/-- Replacements contributed by projects. -/
def projPart (cv : CvData) : List (Str × Str) :=
  match cv.projects with
  | none => []
  | some ps => ((ps.enumFrom 1).map (fun p => projBlock p.1 p.2)).flatten

/-- DOCXFiller._build_replacements: the insertion-ordered
token-to-value mapping. -/
def buildReplacements (cv : CvData) : List (Str × Str) :=
  personalPart cv ++ eduPart cv ++ expPart cv ++ skillsPart cv ++ projPart cv

/-- First-match lookup, the observable behaviour of the Python dict
(all synthesized keys are distinct). -/
def lookupRepl (l : List (Str × Str)) (k : Str) : Option Str :=
  (l.find? (fun e => decide (e.1 = k))).map (fun e => e.2)

/-- The two tokens routed to the hyperlink path. -/
def ghTok : Str := wrap ("GITHUB".toList)

/-- The LinkedIn token. -/
def liTok : Str := wrap ("LINKEDIN".toList)

/-- Membership test of the hyperlink token pair. -/
def isHlTok (tok : Str) : Bool := decide (tok = ghTok ∨ tok = liTok)

/-- any(placeholder in full_text for placeholder in replacements). -/
def hasPlaceholder (repl : List (Str × Str)) (full : Str) : Bool :=
  repl.any (fun tv => (findSub tv.1 full).isSome)

/-- All placeholders found in the rendered text, with the offset of
the first occurrence of each, in map insertion order (pre-sort). -/
def scanMatches (repl : List (Str × Str)) (full : Str) : List (Nat × Str × Str) :=
  repl.filterMap (fun tv => (findSub tv.1 full).map (fun p => (p, tv.1, tv.2)))

/-- DOCXFiller._add_hyperlink: normalize the URL scheme, then build a
hyperlink element holding one run that carries the template's font
name and size (when truthy) plus the fixed link style: single
underline and color 0563C1.  The stored size is in points; the XML
carries twice that value in half-points. -/
def addHyperlink (text url : Str) (tmpl : Fmt) : Hyperlink :=
  let url2 : Str :=
    if ("http://".toList).isPrefixOf url ∨ ("https://".toList).isPrefixOf url then url
    else "https://".toList ++ url
  let fmt : Fmt :=
    { name :=
        match tmpl.name with
        | some n => if n = [] then none else some n
        | none => none,
      size :=
        match tmpl.size with
        | some s => if s = 0 then none else some s
        | none => none,
      bold := none, italic := none,
      underline := some true,
      color := some ("0563C1".toList) }
  { url := url2, runs := [ { texts := [text], fmt := fmt } ] }

/-- One new_content item, as built before the paragraph is cleared. -/
inductive Item
  | text (t : Str) (src : Fmt)
  | newHl (display : Str) (src : Fmt) (url : Str)
  | existingHl (h : Hyperlink)
deriving DecidableEq, Repr

/-- Elements strictly outside the match are re-emitted: a run only
when its text is non-empty, an existing hyperlink always. -/
def passItem : Elem → Option Item
  | Elem.run r => if r.text = [] then none else some (Item.text r.text r.fmt)
  | Elem.hyper h => some (Item.existingHl h)

/-- Items for the elements strictly before the start element. -/
def beforeItems (es : List Elem) (si : Nat) : List Item :=
  (es.take si).filterMap passItem

/-- Items for the elements strictly after the end element. -/
def afterItems (es : List Elem) (ei : Nat) : List Item :=
  (es.drop (ei + 1)).filterMap passItem

/-- The leading partial text of the start element (only when the
start element is a plain run). -/
def startPartial (es : List Elem) (s0 : CMEntry) : List Item :=
  match es.get? s0.idx with
  | some (Elem.run r) =>
    let tb := r.text.take s0.off
    if tb = [] then [] else [Item.text tb r.fmt]
  | _ => []

/-- The trailing partial text of the end element (only when the end
element is a plain run); pe is pos + len(placeholder). -/
def afterPartial (es : List Elem) (ei : Nat) (pe : Int) : List Item :=
  if ei < es.length then
    match es.get? ei with
    | some (Elem.run r) =>
      let ta := pyDropInt r.text (pe - (charsBefore es ei : Int))
      if ta = [] then [] else [Item.text ta r.fmt]
    | _ => []
  else []

/-- Truthiness of an rgb value held as a hex string: python-docx's
RGBColor subclasses int, so a color is falsy exactly when it denotes
the integer zero - explicit black, every hex digit 0. -/
def rgbTruthy (c : Str) : Bool := c.any (fun ch => ch ≠ '0')

/-- Run synthesized by the plain-text rebuild loop: font name, size,
bold, italic and underline are copied outright; color is copied only
when the source has an explicit and truthy rgb value - the code tests
the RGBColor itself, so explicit black 000000 is falsy and dropped. -/
def makeRunPlain (t : Str) (src : Fmt) : Run :=
  { text := t,
    fmt := { name := src.name, size := src.size, bold := src.bold,
             italic := src.italic, underline := src.underline,
             color :=
               match src.color with
               | some c => if rgbTruthy c then some c else none
               | none => none } }

/-- Run synthesized by the hyperlink-path rebuild loop: only font
name, size, bold and italic are copied; underline and color keep the
fresh-run default. -/
def makeRunHl (t : Str) (src : Fmt) : Run :=
  { text := t,
    fmt := { name := src.name, size := src.size, bold := src.bold,
             italic := src.italic, underline := none, color := none } }

/-- Rebuild loop of the plain path: a text item becomes a six-attribute
copy, an existing hyperlink is re-appended; a new-hyperlink item has no
branch there and is silently dropped. -/
def emitPlain (items : List Item) : List Elem :=
  items.filterMap
    (fun it =>
      match it with
      | Item.text t src => some (Elem.run (makeRunPlain t src))
      | Item.existingHl h => some (Elem.hyper h)
      | Item.newHl _ _ _ => none)

/-- Rebuild loop of the hyperlink path: text items get the
four-attribute copy, the new hyperlink is built by _add_hyperlink,
existing hyperlinks are re-appended. -/
def emitHl (items : List Item) : List Elem :=
  items.map
    (fun it =>
      match it with
      | Item.text t src => Elem.run (makeRunHl t src)
      | Item.newHl d src url => Elem.hyper (addHyperlink d url src)
      | Item.existingHl h => Elem.hyper h)

/-- Snapshot the pPr, clear all non-pPr children, restore the saved
copy, then append the rebuilt content. -/
def rebuildParagraph (p : Paragraph) (c : List Elem) : Paragraph :=
  let saved := p.pPr
  let cleared : Paragraph := { pPr := p.pPr, content := [] }
  match saved with
  | some v => { pPr := some v, content := c }
  | none => { pPr := cleared.pPr, content := c }

/-- First plain-run element of the paragraph, the formatting fallback
(and the template source of the hyperlink path). -/
def firstRun : List Elem → Option Run
  | [] => none
  | Elem.run r :: _ => some r
  | Elem.hyper _ :: t => firstRun t

/-- Display text and target URL for a hyperlink token, drawn from
cv_data personal_info (each get defaults to the empty string). -/
def hlTarget (tok : Str) (d : CvData) : Str × Str :=
  if tok = ghTok then
    ("Github".toList,
      match d.personal_info with
      | some pi => pi.github.getD []
      | none => [])
  else
    ("Linkedin".toList,
      match d.personal_info with
      | some pi => pi.linkedin.getD []
      | none => [])

/-- End element resolution: char_map[pos + len - 1] when that Python
index is below len(char_map), else the start entry.  Python negative
indexing applies, hence the Int arithmetic. -/
def endEntry (cm : List CMEntry) (s0 : CMEntry) (pe : Int) : CMEntry :=
  if pe - 1 < (cm.length : Int) then
    match pyIdx cm (pe - 1) with
    | some e => e
    | none => s0
  else s0

/-- The hyperlink branch of _replace_in_paragraph (token GITHUB or
LINKEDIN with truthy cv_data). -/
def hlPath (d : CvData) (es : List Elem) (cm : List CMEntry) (pos : Nat) (tok : Str)
    (p : Paragraph) : Paragraph :=
  if (cm.length : Int) ≤ (pos : Int) then p
  else
    match cm.get? pos with
    | none => p
    | some s0 =>
      let pe : Int := (pos : Int) + (tok.length : Int)
      let e0 := endEntry cm s0 pe
      match firstRun es with
      | none => p
      | some tmpl =>
        let du := hlTarget tok d
        let items :=
          beforeItems es s0.idx ++ startPartial es s0 ++
            [Item.newHl du.1 tmpl.fmt du.2] ++
            afterPartial es e0.idx pe ++ afterItems es e0.idx
        rebuildParagraph p (emitHl items)

/-- Template selection of the plain path: the start element when the
char_map tags it as a run, else the first plain run anywhere. -/
def plainTemplate (es : List Elem) (s0 : CMEntry) : Option Run :=
  match (if s0.kind = EKind.runK then es.get? s0.idx else none) with
  | some (Elem.run r) => some r
  | _ => firstRun es

/-- The plain-text branch of _replace_in_paragraph. -/
def plainPath (es : List Elem) (cm : List CMEntry) (pos : Nat) (tok v : Str)
    (p : Paragraph) : Paragraph :=
  if (cm.length : Int) ≤ (pos : Int) then p
  else
    match cm.get? pos with
    | none => p
    | some s0 =>
      let pe : Int := (pos : Int) + (tok.length : Int)
      let e0 := endEntry cm s0 pe
      match plainTemplate es s0 with
      | none => p
      | some tmpl =>
        let items :=
          beforeItems es s0.idx ++ startPartial es s0 ++
            [Item.text v tmpl.fmt] ++
            afterPartial es e0.idx pe ++ afterItems es e0.idx
        rebuildParagraph p (emitPlain items)

/-- DOCXFiller._replace_in_paragraph: scan the rendered text, pick the
single earliest match, and resolve it through the hyperlink path (for
the two designated tokens with truthy cv_data) or the plain path. -/
def replaceInParagraph (repl : List (Str × Str)) (cv : Option CvData)
    (p : Paragraph) : Paragraph :=
  let full := renderedText p
  if hasPlaceholder repl full = false then p
  else
    let es := p.content
    let cm := charMapOf es
    if es.isEmpty then p
    else
      match pickMin (scanMatches repl full) with
      | none => p
      | some (pos, tok, v) =>
        if isHlTok tok && cvTruthy cv then
          match cv with
          | some d => hlPath d es cm pos tok p
          | none => p
        else plainPath es cm pos tok v p

/-- The per-paragraph pass loop of fill_template: up to the given
number of passes, stopping as soon as no placeholder remains. -/
def fillLoop (repl : List (Str × Str)) (cv : Option CvData) :
    Nat → Paragraph → Paragraph
  | 0, p => p
  | n + 1, p =>
    if hasPlaceholder repl (renderedText p) then
      fillLoop repl cv n (replaceInParagraph repl cv p)
    else p

/-- Number of scan-resolve passes the loop actually executes. -/
def passCount (repl : List (Str × Str)) (cv : Option CvData) :
    Nat → Paragraph → Nat
  | 0, _ => 0
  | n + 1, p =>
    if hasPlaceholder repl (renderedText p) then
      passCount repl cv n (replaceInParagraph repl cv p) + 1
    else 0

/-- The fixed per-paragraph pass cap (max_iterations). -/
def maxIterations : Nat := 20

/-- Fill one paragraph: at most maxIterations passes. -/
def fillPara (repl : List (Str × Str)) (cv : Option CvData) (p : Paragraph) :
    Paragraph :=
  fillLoop repl cv maxIterations p

/-- A table: rows of cells, each cell a list of paragraphs. -/
structure Table where
  rows : List (List (List Paragraph))
deriving DecidableEq, Repr

/-- A document: body paragraphs and tables (file I/O is outside the
model). -/
structure Doc where
  paragraphs : List Paragraph
  tables : List Table
deriving DecidableEq, Repr

/-- DOCXFiller.fill_template on the in-memory document: build the
replacement map once, then run the capped pass loop over every body
paragraph and every paragraph of every table cell, passing cv_data
through for hyperlink routing. -/
def fillTemplate (cv : CvData) (doc : Doc) : Doc :=
  let repl := buildReplacements cv
  { paragraphs := doc.paragraphs.map (fillPara repl (some cv)),
    tables :=
      doc.tables.map
        (fun t =>
          { rows := t.rows.map (fun row => row.map (fun cell => cell.map (fillPara repl (some cv)))) }) }

/-- Whether every inline element of the list is a plain run. -/
def runsOnly (es : List Elem) : Bool :=
  es.all (fun e => match e with | Elem.run _ => true | Elem.hyper _ => false)

/-- The token occurs in the text at offset i. -/
def OccursAt (tok full : Str) (i : Nat) : Prop :=
  (full.drop i).take tok.length = tok

/-- A richly formatted template run style used by concrete instances. -/
def fmtArial : Fmt :=
  { name := some ("Arial".toList), size := some 11, bold := some true,
    italic := none, underline := some true, color := some ("FF0000".toList) }

/-- The same template style with an explicit black color, whose rgb
value 000000 is the falsy integer zero. -/
def fmtBlack : Fmt := { fmtArial with color := some ("000000".toList) }

/-- The NAME placeholder token. -/
def nameTok : Str := wrap ("NAME".toList)

/-- A one-entry replacement map sending NAME to John. -/
def mapName : List (Str × Str) := [(nameTok, "John".toList)]

/-- A single-run paragraph whose text contains the NAME token. -/
def paraHello : Paragraph :=
  { pPr := some ("props".toList),
    content := [Elem.run { text := "Hello ".toList ++ nameTok ++ "!".toList, fmt := fmtArial }] }

/-- A paragraph whose only content is a hyperlink carrying the NAME
token, with no plain run anywhere: the engine has no formatting
template and resolves nothing. -/
def paraHyperOnly : Paragraph :=
  { pPr := none,
    content := [Elem.hyper { url := "u".toList, runs := [ { texts := [nameTok], fmt := Fmt.empty } ] }] }

/-- A paragraph whose hyperlink run has two text nodes: the rendered
text is longer than the character index, so the found offset is out of
the index bounds (the stale-index shape). -/
def paraStale : Paragraph :=
  { pPr := none,
    content := [Elem.hyper { url := "u".toList, runs := [ { texts := ["AB".toList, nameTok], fmt := Fmt.empty } ] }] }

/-- A single styled run around the GITHUB token. -/
def paraSibling : Paragraph :=
  { pPr := none,
    content := [Elem.run { text := "A".toList ++ ghTok ++ "B".toList, fmt := fmtArial }] }

/-- cv_data with a github profile value lacking a URL scheme. -/
def cvGithub : CvData :=
  { personal_info := some { github := some ("jdoe".toList) } }

/-- Replacement map for the GITHUB token. -/
def mapGh : List (Str × Str) := [(ghTok, "jdoe".toList)]

/-- cv_data whose skills section is present (a dict with languages)
while the other skills fields are absent. -/
def cvSkillsOnly : CvData :=
  { skills := some (SkillsVal.dict { languages := some (SL.l ["Py".toList]) }) }

/-- A token-free paragraph. -/
def paraNoTok : Paragraph :=
  { pPr := none, content := [Elem.run { text := "Hello!".toList, fmt := fmtArial }] }

/-- A document holding only the hyperlink-trapped paragraph. -/
def docHyperOnly : Doc := { paragraphs := [paraHyperOnly], tables := [] }

/-- An education record with every optional field absent. -/
def eduBare : Edu := {}

/-- cv_data holding one bare education record and nothing else. -/
def cvEduOnly : CvData := { education := some [eduBare] }

/-! ## Helper lemmas -/

lemma rebuildParagraph_content (p : Paragraph) (c : List Elem) :
    (rebuildParagraph p c).content = c := by
  cases h : p.pPr <;> simp [rebuildParagraph, h]

lemma rebuildParagraph_pPr (p : Paragraph) (c : List Elem) :
    (rebuildParagraph p c).pPr = p.pPr := by
  cases h : p.pPr <;> simp [rebuildParagraph, h]

lemma hasPlaceholder_false_of {repl : List (Str × Str)} {full : Str}
    (h : ∀ tv ∈ repl, findSub tv.1 full = none) :
    hasPlaceholder repl full = false := by
  simp only [hasPlaceholder, List.any_eq_false]
  intro x hx
  simp [h x hx]

lemma hasPlaceholder_true_of {repl : List (Str × Str)} {full : Str}
    {tok v : Str} {pos : Nat}
    (hmem : (tok, v) ∈ repl) (hf : findSub tok full = some pos) :
    hasPlaceholder repl full = true := by
  simp only [hasPlaceholder, List.any_eq_true]
  exact ⟨(tok, v), hmem, by simp [hf]⟩

lemma mem_scanMatches {repl : List (Str × Str)} {full : Str}
    {pos : Nat} {tok v : Str} :
    (pos, tok, v) ∈ scanMatches repl full ↔
      ((tok, v) ∈ repl ∧ findSub tok full = some pos) := by
  simp only [scanMatches, List.mem_filterMap, Option.map_eq_some']
  constructor
  · rintro ⟨⟨t0, v0⟩, hmem, q, hq, heq⟩
    cases heq
    exact ⟨hmem, hq⟩
  · rintro ⟨hmem, hf⟩
    exact ⟨(tok, v), hmem, pos, hf, rfl⟩

lemma isPrefixOf_iff_take {a b : Str} :
    a.isPrefixOf b = true ↔ b.take a.length = a := by
  rw [ List.isPrefixOf_iff_prefix, List.prefix_iff_eq_take]
  exact ⟨fun h => h.symm, fun h => h.symm⟩

lemma findSub_le_length {n h : Str} {i : Nat} (hf : findSub n h = some i) :
    i ≤ h.length := by
  induction h generalizing i with
  | nil =>
    simp only [findSub] at hf
    split at hf
    · cases hf; simp
    · cases hf
  | cons c t ih =>
    simp only [findSub] at hf
    split at hf
    · cases hf; simp
    · rcases Option.map_eq_some'.mp hf with ⟨i0, hi0, rfl⟩
      have := ih hi0
      simp only [List.length_cons]
      omega

lemma findSub_occurs {n h : Str} {i : Nat} (hf : findSub n h = some i) :
    OccursAt n h i := by
  induction h generalizing i with
  | nil =>
    simp only [findSub] at hf
    split at hf
    · cases hf
      rename_i hp
      simpa [OccursAt] using isPrefixOf_iff_take.mp hp
    · cases hf
  | cons c t ih =>
    simp only [findSub] at hf
    split at hf
    · cases hf
      rename_i hp
      simpa [OccursAt] using isPrefixOf_iff_take.mp hp
    · rcases Option.map_eq_some'.mp hf with ⟨i0, hi0, rfl⟩
      have := ih hi0
      simpa [OccursAt, List.drop_succ_cons] using this

lemma findSub_least {n h : Str} {i : Nat} (hf : findSub n h = some i) :
    ∀ j < i, ¬ OccursAt n h j := by
  induction h generalizing i with
  | nil =>
    simp only [findSub] at hf
    split at hf
    · cases hf; omega
    · cases hf
  | cons c t ih =>
    simp only [findSub] at hf
    split at hf
    · cases hf; omega
    · rcases Option.map_eq_some'.mp hf with ⟨i0, hi0, rfl⟩
      intro j hj
      rename_i hp
      cases j with
      | zero =>
        intro hocc
        exact hp (isPrefixOf_iff_take.mpr (by simpa [OccursAt] using hocc))
      | succ j0 =>
        intro hocc
        exact ih hi0 j0 (by omega) (by simpa [OccursAt, List.drop_succ_cons] using hocc)

lemma findSub_none_occurs {n h : Str} (hf : findSub n h = none) :
    ∀ j, ¬ OccursAt n h j := by
  induction h with
  | nil =>
    simp only [findSub] at hf
    split at hf
    · cases hf
    · rename_i hp
      intro j hocc
      have : n = [] := by simpa [OccursAt] using hocc
      subst this
      simp [List.isPrefixOf] at hp
  | cons c t ih =>
    simp only [findSub] at hf
    split at hf
    · cases hf
    · rename_i hp
      have ht : findSub n t = none := by
        cases hft : findSub n t with
        | none => rfl
        | some k => rw [hft] at hf; simp at hf
      intro j hocc
      cases j with
      | zero => exact hp (isPrefixOf_iff_take.mpr (by simpa [OccursAt] using hocc))
      | succ j0 => exact ih ht j0 (by simpa [OccursAt, List.drop_succ_cons] using hocc)

lemma findSub_bound {n h : Str} {i : Nat} (hf : findSub n h = some i) :
    i + n.length ≤ h.length := by
  have hocc := findSub_occurs hf
  have hle := findSub_le_length hf
  have hlen := congrArg List.length hocc
  simp only [OccursAt, List.length_take, List.length_drop] at hlen
  omega

lemma findSub_nil_ne {n : Str} (hn : n ≠ []) : findSub n [] = none := by
  simp only [findSub]
  split
  · rename_i hp
    have := isPrefixOf_iff_take.mp hp
    simp at this
    exact absurd this hn
  · rfl

lemma tupLt_true_le {x y : Nat × Str × Str} (h : tupLt x y = true) :
    x.1 ≤ y.1 := by
  unfold tupLt at h
  split_ifs at h <;> omega

lemma tupLt_false_le {x y : Nat × Str × Str} (h : tupLt x y = false) :
    y.1 ≤ x.1 := by
  unfold tupLt at h
  split_ifs at h <;> omega

lemma pickAux (l : List (Nat × Str × Str)) (a : Nat × Str × Str) :
    ∃ m, l.foldl pickStep (some a) = some m ∧ (m = a ∨ m ∈ l) ∧
      m.1 ≤ a.1 ∧ ∀ x ∈ l, m.1 ≤ x.1 := by
  induction l generalizing a with
  | nil => exact ⟨a, rfl, Or.inl rfl, le_refl _, by simp⟩
  | cons x xs ih =>
    by_cases hx : tupLt x a = true
    · rcases ih x with ⟨m, hm, hmem, hle, hall⟩
      refine ⟨m, ?_, ?_, ?_, ?_⟩
      · simpa [List.foldl_cons, pickStep, hx] using hm
      · rcases hmem with rfl | hmm
        · exact Or.inr (by simp)
        · exact Or.inr (by simp [hmm])
      · exact le_trans hle (tupLt_true_le hx)
      · intro y hy
        rcases List.mem_cons.mp hy with rfl | hyy
        · exact hle
        · exact hall y hyy
    · have hx2 : tupLt x a = false := by simpa using hx
      rcases ih a with ⟨m, hm, hmem, hle, hall⟩
      refine ⟨m, ?_, ?_, ?_, ?_⟩
      · simpa [List.foldl_cons, pickStep, hx2] using hm
      · rcases hmem with rfl | hmm
        · exact Or.inl rfl
        · exact Or.inr (by simp [hmm])
      · exact hle
      · intro y hy
        rcases List.mem_cons.mp hy with rfl | hyy
        · exact le_trans hle (tupLt_false_le hx2)
        · exact hall y hyy

lemma pickMin_spec {l : List (Nat × Str × Str)} {m : Nat × Str × Str}
    (h : pickMin l = some m) : m ∈ l ∧ ∀ x ∈ l, m.1 ≤ x.1 := by
  cases l with
  | nil => cases h
  | cons x xs =>
    rcases pickAux xs x with ⟨m0, hm0, hmem, hle, hall⟩
    have : some m0 = some m := by
      rw [← hm0]
      simpa [pickMin, List.foldl_cons, pickStep] using h
    cases this
    refine ⟨?_, ?_⟩
    · rcases hmem with rfl | hmm
      · simp
      · simp [hmm]
    · intro y hy
      rcases List.mem_cons.mp hy with rfl | hyy
      · exact hle
      · exact hall y hyy

lemma lt_length_of_get?_some {l : List α} {n : Nat} {a : α}
    (h : l.get? n = some a) : n < l.length := by
  by_contra hc
  rw [List.get?_eq_none.mpr (by omega)] at h
  cases h

/-- Total index-text length of an element sequence. -/
def sumLens (es : List Elem) : Nat :=
  (es.map (fun e => (elemIndexText e).length)).sum

lemma charsBefore_zero (es : List Elem) : charsBefore es 0 = 0 := by
  simp [charsBefore]

lemma charsBefore_succ_cons (e : Elem) (es : List Elem) (k : Nat) :
    charsBefore (e :: es) (k + 1) = (elemIndexText e).length + charsBefore es k := by
  simp [charsBefore, List.take_succ_cons]

lemma charMapAux_length (es : List Elem) : ∀ i, (charMapAux i es).length = sumLens es := by
  induction es with
  | nil => intro i; simp [charMapAux, sumLens]
  | cons e tl ih =>
    intro i
    simp [charMapAux, sumLens, List.length_append, ih (i + 1)]

lemma charMapAux_get (es : List Elem) : ∀ (i0 pos : Nat), pos < sumLens es →
    ∃ j e, es.get? j = some e ∧ charsBefore es j ≤ pos ∧
      pos < charsBefore es j + (elemIndexText e).length ∧
      (charMapAux i0 es).get? pos =
        some { idx := i0 + j, kind := kindOf e, off := pos - charsBefore es j } := by
  induction es with
  | nil => intro i0 pos h; simp [sumLens] at h
  | cons e tl ih =>
    intro i0 pos h
    by_cases hlt : pos < (elemIndexText e).length
    · refine ⟨0, e, rfl, by simp [charsBefore_zero], ?_, ?_⟩
      · simpa [charsBefore_zero] using hlt
      · have hfirst :
            (charMapAux i0 (e :: tl)).get? pos =
              ((List.range (elemIndexText e).length).map
                (fun off => ({ idx := i0, kind := kindOf e, off := off } : CMEntry))).get? pos := by
          simp only [charMapAux]
          exact List.get?_append (by simpa using hlt)
        rw [hfirst, List.get?_map, List.get?_range hlt]
        simp [charsBefore_zero]
    · have hge : (elemIndexText e).length ≤ pos := by omega
      have hrest : pos - (elemIndexText e).length < sumLens tl := by
        simp [sumLens] at h ⊢
        omega
      rcases ih (i0 + 1) (pos - (elemIndexText e).length) hrest with
        ⟨j, e2, hj, hcb1, hcb2, hget⟩
      refine ⟨j + 1, e2, by simpa using hj, ?_, ?_, ?_⟩
      · rw [charsBefore_succ_cons]; omega
      · rw [charsBefore_succ_cons]; omega
      · have happ :
            (charMapAux i0 (e :: tl)).get? pos =
              (charMapAux (i0 + 1) tl).get? (pos - (elemIndexText e).length) := by
          simp only [charMapAux]
          rw [List.get?_append_right (by simpa using hge)]
          simp
        rw [happ, hget]
        have h1 : i0 + 1 + j = i0 + (j + 1) := by omega
        have h2 : pos - (elemIndexText e).length - charsBefore tl j =
            pos - charsBefore (e :: tl) (j + 1) := by
          rw [charsBefore_succ_cons]; omega
        rw [h1, h2]

lemma charMapOf_length (es : List Elem) : (charMapOf es).length = sumLens es :=
  charMapAux_length es 0

lemma charMapOf_get (es : List Elem) (pos : Nat) (h : pos < sumLens es) :
    ∃ j e, es.get? j = some e ∧ charsBefore es j ≤ pos ∧
      pos < charsBefore es j + (elemIndexText e).length ∧
      (charMapOf es).get? pos =
        some { idx := j, kind := kindOf e, off := pos - charsBefore es j } := by
  rcases charMapAux_get es 0 pos h with ⟨j, e, hj, h1, h2, h3⟩
  exact ⟨j, e, hj, h1, h2, by simpa using h3⟩

/-- Sum of the lengths of the first j strings. -/
def preLen (ts : List Str) (j : Nat) : Nat :=
  ((ts.take j).map List.length).sum

lemma preLen_zero (ts : List Str) : preLen ts 0 = 0 := by simp [preLen]

lemma preLen_succ_cons (t : Str) (ts : List Str) (j : Nat) :
    preLen (t :: ts) (j + 1) = t.length + preLen ts j := by
  simp [preLen, List.take_succ_cons]

lemma charsBefore_eq_preLen (es : List Elem) (k : Nat) :
    charsBefore es k = preLen (es.map elemIndexText) k := by
  simp only [charsBefore, preLen, ← List.map_take, List.map_map]
  rfl

lemma sumLens_eq_flatten_length (es : List Elem) :
    sumLens es = (es.map elemIndexText).flatten.length := by
  rw [List.length_flatten, List.map_map]
  rfl

lemma flatten_take_block (ts : List Str) : ∀ (j : Nat) (t : Str) (pos : Nat),
    ts.get? j = some t → preLen ts j ≤ pos → pos ≤ preLen ts j + t.length →
    ts.flatten.take pos = (ts.take j).flatten ++ t.take (pos - preLen ts j) := by
  induction ts with
  | nil => intro j t pos h; cases h
  | cons t0 tl ih =>
    intro j t pos hget hlo hhi
    cases j with
    | zero =>
      cases hget
      rw [preLen_zero] at hlo hhi
      simp only [List.flatten_cons, List.take_append_eq_append_take]
      have hz : pos - t0.length = 0 := by omega
      rw [hz]
      simp [preLen_zero]
    | succ j0 =>
      rw [List.get?_cons_succ] at hget
      rw [preLen_succ_cons] at hlo hhi
      have hge : t0.length ≤ pos := by omega
      simp only [List.flatten_cons, List.take_append_eq_append_take]
      rw [List.take_of_length_le hge]
      rw [ih j0 t (pos - t0.length) hget (by omega) (by omega)]
      simp only [List.take_succ_cons, List.flatten_cons, preLen_succ_cons]
      rw [List.append_assoc]
      have harith : pos - t0.length - preLen tl j0 = pos - (t0.length + preLen tl j0) := by
        omega
      rw [harith]

lemma flatten_drop_block (ts : List Str) : ∀ (j : Nat) (t : Str) (pos : Nat),
    ts.get? j = some t → preLen ts j ≤ pos → pos ≤ preLen ts j + t.length →
    ts.flatten.drop pos = t.drop (pos - preLen ts j) ++ (ts.drop (j + 1)).flatten := by
  induction ts with
  | nil => intro j t pos h; cases h
  | cons t0 tl ih =>
    intro j t pos hget hlo hhi
    cases j with
    | zero =>
      cases hget
      rw [preLen_zero] at hlo hhi
      simp only [List.flatten_cons, List.drop_append_eq_append_drop]
      have hz : pos - t0.length = 0 := by omega
      rw [hz]
      simp [preLen_zero]
    | succ j0 =>
      rw [List.get?_cons_succ] at hget
      rw [preLen_succ_cons] at hlo hhi
      have hge : t0.length ≤ pos := by omega
      simp only [List.flatten_cons, List.drop_append_eq_append_drop]
      rw [List.drop_eq_nil_of_le hge]
      rw [ih j0 t (pos - t0.length) hget (by omega) (by omega)]
      simp only [List.drop_succ_cons, preLen_succ_cons]
      rw [List.nil_append]
      have harith : pos - t0.length - preLen tl j0 = pos - (t0.length + preLen tl j0) := by
        omega
      rw [harith]

lemma runsOnly_run {es : List Elem} (h : runsOnly es = true) {e : Elem}
    (hmem : e ∈ es) : ∃ r, e = Elem.run r := by
  have := List.all_eq_true.mp h e hmem
  cases e with
  | run r => exact ⟨r, rfl⟩
  | hyper hy => simp at this

lemma runsOnly_of_subset {es es2 : List Elem} (h : runsOnly es = true)
    (hsub : ∀ x ∈ es2, x ∈ es) : runsOnly es2 = true := by
  apply List.all_eq_true.mpr
  intro x hx
  exact List.all_eq_true.mp h x (hsub x hx)

lemma contentText_nil : contentText [] = [] := rfl

lemma contentText_cons (e : Elem) (c : List Elem) :
    contentText (e :: c) = elemRendered e ++ contentText c := by
  simp [contentText]

lemma contentText_append (a b : List Elem) :
    contentText (a ++ b) = contentText a ++ contentText b := by
  simp [contentText]

lemma emitPlain_append (a b : List Item) :
    emitPlain (a ++ b) = emitPlain a ++ emitPlain b := by
  simp [emitPlain, List.filterMap_append]

lemma renderedText_runsOnly {p : Paragraph} (h : runsOnly p.content = true) :
    renderedText p = (p.content.map elemIndexText).flatten := by
  unfold renderedText contentText
  congr 1
  apply List.map_congr_left
  intro e hmem
  rcases runsOnly_run h hmem with ⟨r, rfl⟩
  rfl

lemma contentText_emitPlain_pass {rs : List Elem} (h : runsOnly rs = true) :
    contentText (emitPlain (rs.filterMap passItem)) = (rs.map elemIndexText).flatten := by
  induction rs with
  | nil => rfl
  | cons e tl ih =>
    rcases runsOnly_run h (show e ∈ e :: tl by simp) with ⟨r, rfl⟩
    have htl : runsOnly tl = true :=
      runsOnly_of_subset h (by intro x hx; simp [hx])
    by_cases hr : r.text = []
    · rw [List.filterMap_cons]
      rw [show passItem (Elem.run r) = none by simp [passItem, hr]]
      rw [ih htl]
      simp [elemIndexText, hr]
    · rw [List.filterMap_cons]
      rw [show passItem (Elem.run r) = some (Item.text r.text r.fmt) by
        simp [passItem, hr]]
      rw [show emitPlain (Item.text r.text r.fmt :: List.filterMap passItem tl) =
            Elem.run (makeRunPlain r.text r.fmt) :: emitPlain (List.filterMap passItem tl)
          from rfl]
      rw [contentText_cons, ih htl]
      simp [elemRendered, makeRunPlain, elemIndexText]

lemma pyIdx_nonneg {l : List α} {i : Int} (h : 0 ≤ i) :
    pyIdx l i = l.get? i.toNat := by
  simp [pyIdx, h]

lemma pyDropInt_nonneg {s : Str} {i : Int} (h : 0 ≤ i) :
    pyDropInt s i = s.drop i.toNat := by
  simp [pyDropInt, h]

lemma emitPlain_text_single (v : Str) (f : Fmt) :
    contentText (emitPlain [Item.text v f]) = v := by
  simp [emitPlain, contentText, elemRendered, makeRunPlain]

lemma startPartial_text {es : List Elem} {s0 : CMEntry} {r : Run}
    (hget : es.get? s0.idx = some (Elem.run r)) :
    contentText (emitPlain (startPartial es s0)) = r.text.take s0.off := by
  simp only [startPartial, hget]
  by_cases htb : r.text.take s0.off = []
  · rw [if_pos htb, htb]
    rfl
  · rw [if_neg htb]
    exact emitPlain_text_single _ _

lemma afterPartial_text {es : List Elem} {ei : Nat} {r : Run}
    (hget : es.get? ei = some (Elem.run r)) (hlen : ei < es.length)
    {pe : Int} (hpe : 0 ≤ pe - (charsBefore es ei : Int)) :
    contentText (emitPlain (afterPartial es ei pe)) =
      r.text.drop (pe - (charsBefore es ei : Int)).toNat := by
  simp only [afterPartial, if_pos hlen, hget]
  rw [pyDropInt_nonneg hpe]
  by_cases hta : r.text.drop (pe - (charsBefore es ei : Int)).toNat = []
  · rw [if_pos hta, hta]
    rfl
  · rw [if_neg hta]
    exact emitPlain_text_single _ _

/-- Every item of the list is a plain-text item. -/
def TextOnly (items : List Item) : Prop :=
  ∀ it ∈ items, ∃ t f, it = Item.text t f

lemma textOnly_append {a b : List Item} (ha : TextOnly a) (hb : TextOnly b) :
    TextOnly (a ++ b) := by
  intro it hit
  rcases List.mem_append.mp hit with h | h
  · exact ha it h
  · exact hb it h

lemma textOnly_pass {rs : List Elem} (h : runsOnly rs = true) :
    TextOnly (rs.filterMap passItem) := by
  intro it hit
  rcases List.mem_filterMap.mp hit with ⟨e, hmem, hpe⟩
  rcases runsOnly_run h hmem with ⟨r, rfl⟩
  simp only [passItem] at hpe
  by_cases hr : r.text = []
  · simp [hr] at hpe
  · rw [if_neg hr] at hpe
    exact ⟨r.text, r.fmt, by cases hpe; rfl⟩

lemma textOnly_startPartial (es : List Elem) (s0 : CMEntry) :
    TextOnly (startPartial es s0) := by
  intro it hit
  unfold startPartial at hit
  split at hit
  · rename_i r heq
    simp only [] at hit
    split at hit
    · cases hit
    · rcases List.mem_singleton.mp hit with rfl
      exact ⟨_, _, rfl⟩
  · cases hit

lemma textOnly_afterPartial (es : List Elem) (ei : Nat) (pe : Int) :
    TextOnly (afterPartial es ei pe) := by
  intro it hit
  unfold afterPartial at hit
  split at hit
  · split at hit
    · rename_i r heq
      simp only [] at hit
      split at hit
      · cases hit
      · rcases List.mem_singleton.mp hit with rfl
        exact ⟨_, _, rfl⟩
    · cases hit
  · cases hit

lemma textOnly_single (v : Str) (f : Fmt) : TextOnly [Item.text v f] := by
  intro it hit
  rcases List.mem_singleton.mp hit with rfl
  exact ⟨v, f, rfl⟩

lemma runsOnly_emitPlain {items : List Item} (h : TextOnly items) :
    runsOnly (emitPlain items) = true := by
  apply List.all_eq_true.mpr
  intro e he
  rcases List.mem_filterMap.mp he with ⟨it, hmem, hit⟩
  rcases h it hmem with ⟨t, f, rfl⟩
  simp only at hit
  cases hit
  rfl

lemma renderedText_rebuild (p : Paragraph) (c : List Elem) :
    renderedText (rebuildParagraph p c) = contentText c := by
  unfold renderedText
  rw [rebuildParagraph_content]

lemma texts_get? {es : List Elem} {j : Nat} {r : Run}
    (h : es.get? j = some (Elem.run r)) :
    (es.map elemIndexText).get? j = some r.text := by
  rw [List.get?_map, h]
  rfl

lemma plainPath_progress (p : Paragraph) (pos : Nat) (tok v : Str)
    (hro : runsOnly p.content = true)
    (hf : findSub tok (renderedText p) = some pos)
    (ht : tok ≠ []) :
    renderedText (plainPath p.content (charMapOf p.content) pos tok v p) =
      (renderedText p).take pos ++ v ++ (renderedText p).drop (pos + tok.length) ∧
    runsOnly (plainPath p.content (charMapOf p.content) pos tok v p).content = true := by
  have hL : 0 < tok.length := List.length_pos.mpr ht
  have hfull : renderedText p = (p.content.map elemIndexText).flatten :=
    renderedText_runsOnly hro
  have hbound : pos + tok.length ≤ (p.content.map elemIndexText).flatten.length := by
    rw [← hfull]
    exact findSub_bound hf
  have hsum : sumLens p.content = (p.content.map elemIndexText).flatten.length :=
    sumLens_eq_flatten_length p.content
  have hposlt : pos < sumLens p.content := by omega
  have hcmlen : (charMapOf p.content).length = sumLens p.content :=
    charMapOf_length p.content
  obtain ⟨si, e1, hget1, hcb1, hcb2, hcm1⟩ := charMapOf_get p.content pos hposlt
  obtain ⟨r1, rfl⟩ := runsOnly_run hro (List.get?_mem hget1)
  have hpe1lt : pos + tok.length - 1 < sumLens p.content := by omega
  obtain ⟨ei, e2, hget2, hdb1, hdb2, hcm2⟩ :=
    charMapOf_get p.content (pos + tok.length - 1) hpe1lt
  obtain ⟨r2, rfl⟩ := runsOnly_run hro (List.get?_mem hget2)
  simp only [elemIndexText] at hcb2 hdb2
  have heilt : ei < p.content.length := lt_length_of_get?_some hget2
  -- reduce the function to its rebuild form
  have hnotle : ¬ (((charMapOf p.content).length : Int) ≤ (pos : Int)) := by
    rw [hcmlen]
    omega
  have hpyidx : pyIdx (charMapOf p.content) ((pos : Int) + (tok.length : Int) - 1) =
      some { idx := ei, kind := EKind.runK,
             off := pos + tok.length - 1 - charsBefore p.content ei } := by
    rw [pyIdx_nonneg (by omega)]
    have htn : ((pos : Int) + (tok.length : Int) - 1).toNat = pos + tok.length - 1 := by
      omega
    rw [htn]
    simpa [kindOf] using hcm2
  have hllt : ((pos : Int) + (tok.length : Int)) - 1 < ((charMapOf p.content).length : Int) := by
    rw [hcmlen]
    omega
  have hend : endEntry (charMapOf p.content)
      { idx := si, kind := EKind.runK, off := pos - charsBefore p.content si }
      ((pos : Int) + (tok.length : Int)) =
      { idx := ei, kind := EKind.runK,
        off := pos + tok.length - 1 - charsBefore p.content ei } := by
    unfold endEntry
    rw [if_pos hllt, hpyidx]
  have hget1e : p.content[si]? = some (Elem.run r1) := by
    rw [← List.get?_eq_getElem?]
    exact hget1
  have htmpl : plainTemplate p.content
      { idx := si, kind := EKind.runK, off := pos - charsBefore p.content si } = some r1 := by
    simp [plainTemplate, hget1e]
  have hstep : plainPath p.content (charMapOf p.content) pos tok v p =
      rebuildParagraph p (emitPlain
        (beforeItems p.content si ++
          startPartial p.content
            { idx := si, kind := EKind.runK, off := pos - charsBefore p.content si } ++
          [Item.text v r1.fmt] ++
          afterPartial p.content ei ((pos : Int) + (tok.length : Int)) ++
          afterItems p.content ei)) := by
    unfold plainPath
    rw [if_neg hnotle]
    have hcm1k : (charMapOf p.content).get? pos =
        some { idx := si, kind := EKind.runK, off := pos - charsBefore p.content si } := by
      simpa [kindOf] using hcm1
    rw [hcm1k]
    simp only [hend, htmpl]
  rw [hstep]
  constructor
  · -- rendered text equation
    rw [renderedText_rebuild]
    rw [emitPlain_append, emitPlain_append, emitPlain_append, emitPlain_append]
    rw [contentText_append, contentText_append, contentText_append, contentText_append]
    have hA : contentText (emitPlain (beforeItems p.content si)) =
        ((p.content.map elemIndexText).take si).flatten := by
      unfold beforeItems
      rw [contentText_emitPlain_pass
        (runsOnly_of_subset hro (fun x hx => List.take_subset si p.content hx))]
      rw [List.map_take]
    have hB : contentText (emitPlain (startPartial p.content
        { idx := si, kind := EKind.runK, off := pos - charsBefore p.content si })) =
        r1.text.take (pos - charsBefore p.content si) :=
      startPartial_text hget1
    have hC : contentText (emitPlain [Item.text v r1.fmt]) = v :=
      emitPlain_text_single v r1.fmt
    have hpe0 : (0 : Int) ≤ (pos : Int) + (tok.length : Int) - (charsBefore p.content ei : Int) := by
      omega
    have hD : contentText (emitPlain (afterPartial p.content ei
        ((pos : Int) + (tok.length : Int)))) =
        r2.text.drop (pos + tok.length - charsBefore p.content ei) := by
      rw [afterPartial_text hget2 heilt hpe0]
      congr 1
      omega
    have hE : contentText (emitPlain (afterItems p.content ei)) =
        ((p.content.map elemIndexText).drop (ei + 1)).flatten := by
      unfold afterItems
      rw [contentText_emitPlain_pass
        (runsOnly_of_subset hro (fun x hx => List.drop_subset (ei + 1) p.content hx))]
      rw [List.map_drop]
    rw [hA, hB, hC, hD, hE]
    have htake : (renderedText p).take pos =
        ((p.content.map elemIndexText).take si).flatten ++
          r1.text.take (pos - charsBefore p.content si) := by
      rw [hfull]
      rw [flatten_take_block (p.content.map elemIndexText) si r1.text pos
        (texts_get? hget1)
        (by rw [← charsBefore_eq_preLen]; omega)
        (by rw [← charsBefore_eq_preLen]; omega)]
      rw [← charsBefore_eq_preLen]
    have hdrop : (renderedText p).drop (pos + tok.length) =
        r2.text.drop (pos + tok.length - charsBefore p.content ei) ++
          ((p.content.map elemIndexText).drop (ei + 1)).flatten := by
      rw [hfull]
      rw [flatten_drop_block (p.content.map elemIndexText) ei r2.text (pos + tok.length)
        (texts_get? hget2)
        (by rw [← charsBefore_eq_preLen]; omega)
        (by rw [← charsBefore_eq_preLen]; omega)]
      rw [← charsBefore_eq_preLen]
    rw [htake, hdrop]
    simp [List.append_assoc]
  · -- the rebuilt paragraph again holds only plain runs
    rw [rebuildParagraph_content]
    apply runsOnly_emitPlain
    apply textOnly_append
    apply textOnly_append
    apply textOnly_append
    apply textOnly_append
    · exact textOnly_pass (runsOnly_of_subset hro (fun x hx => List.take_subset si p.content hx))
    · exact textOnly_startPartial _ _
    · exact textOnly_single v r1.fmt
    · exact textOnly_afterPartial _ _ _
    · exact textOnly_pass (runsOnly_of_subset hro (fun x hx => List.drop_subset (ei + 1) p.content hx))

lemma replaceInParagraph_no_ph {repl : List (Str × Str)} {cv : Option CvData}
    {p : Paragraph} (h : hasPlaceholder repl (renderedText p) = false) :
    replaceInParagraph repl cv p = p := by
  simp [replaceInParagraph, h]

lemma replaceInParagraph_eq_plainPath {repl : List (Str × Str)} {cv : Option CvData}
    {p : Paragraph} {pos : Nat} {tok v : Str}
    (h1 : hasPlaceholder repl (renderedText p) = true)
    (h2 : p.content.isEmpty = false)
    (h3 : pickMin (scanMatches repl (renderedText p)) = some (pos, tok, v))
    (h4 : (isHlTok tok && cvTruthy cv) = false) :
    replaceInParagraph repl cv p =
      plainPath p.content (charMapOf p.content) pos tok v p := by
  simp [replaceInParagraph, h1, h2, h3, h4]

lemma plainPath_oob {es : List Elem} {cm : List CMEntry} {pos : Nat} {tok v : Str}
    {p : Paragraph} (h : (cm.length : Int) ≤ (pos : Int)) :
    plainPath es cm pos tok v p = p := by
  simp [plainPath, h]

lemma hlPath_oob {d : CvData} {es : List Elem} {cm : List CMEntry} {pos : Nat}
    {tok : Str} {p : Paragraph} (h : (cm.length : Int) ≤ (pos : Int)) :
    hlPath d es cm pos tok p = p := by
  simp [hlPath, h]

lemma fillLoop_stop {repl : List (Str × Str)} {cv : Option CvData} {p : Paragraph}
    (h : hasPlaceholder repl (renderedText p) = false) :
    ∀ n, fillLoop repl cv n p = p := by
  intro n
  cases n with
  | zero => rfl
  | succ n0 => simp [fillLoop, h]

lemma passCount_le (repl : List (Str × Str)) (cv : Option CvData) :
    ∀ n p, passCount repl cv n p ≤ n := by
  intro n
  induction n with
  | zero => intro p; simp [passCount]
  | succ n0 ih =>
    intro p
    by_cases h : hasPlaceholder repl (renderedText p) = true
    · simp only [passCount, if_pos h]
      have := ih (replaceInParagraph repl cv p)
      omega
    · have h2 : hasPlaceholder repl (renderedText p) = false := by
        simpa using h
      simp [passCount, h2]

lemma fillLoop_resolved_or_cap (repl : List (Str × Str)) (cv : Option CvData) :
    ∀ n p, hasPlaceholder repl (renderedText (fillLoop repl cv n p)) = false ∨
      passCount repl cv n p = n := by
  intro n
  induction n with
  | zero => intro p; right; rfl
  | succ n0 ih =>
    intro p
    by_cases h : hasPlaceholder repl (renderedText p) = true
    · rcases ih (replaceInParagraph repl cv p) with hres | hcap
      · left
        simpa [fillLoop, h] using hres
      · right
        simp [passCount, h, hcap]
    · left
      have h2 : hasPlaceholder repl (renderedText p) = false := by simpa using h
      rw [show fillLoop repl cv (n0 + 1) p = p by simp [fillLoop, h2]]
      exact h2

lemma plainPath_pPr (es : List Elem) (cm : List CMEntry) (pos : Nat) (tok v : Str)
    (p : Paragraph) : (plainPath es cm pos tok v p).pPr = p.pPr := by
  unfold plainPath
  split
  · rfl
  · split
    · rfl
    · dsimp only
      split
      · rfl
      · exact rebuildParagraph_pPr _ _

lemma hlPath_pPr (d : CvData) (es : List Elem) (cm : List CMEntry) (pos : Nat)
    (tok : Str) (p : Paragraph) : (hlPath d es cm pos tok p).pPr = p.pPr := by
  unfold hlPath
  split
  · rfl
  · split
    · rfl
    · dsimp only
      split
      · rfl
      · exact rebuildParagraph_pPr _ _

lemma replaceInParagraph_eq_hlPath {repl : List (Str × Str)} {d : CvData}
    {p : Paragraph} {pos : Nat} {tok v : Str}
    (h1 : hasPlaceholder repl (renderedText p) = true)
    (h2 : p.content.isEmpty = false)
    (h3 : pickMin (scanMatches repl (renderedText p)) = some (pos, tok, v))
    (h4 : (isHlTok tok && cvTruthy (some d)) = true) :
    replaceInParagraph repl (some d) p =
      hlPath d p.content (charMapOf p.content) pos tok p := by
  simp [replaceInParagraph, h1, h2, h3, h4]

lemma replace_progress {repl : List (Str × Str)} {cv : Option CvData}
    {p : Paragraph} {pos : Nat} {tok v : Str}
    (hro : runsOnly p.content = true)
    (hpk : pickMin (scanMatches repl (renderedText p)) = some (pos, tok, v))
    (ht : tok ≠ [])
    (hnh : (isHlTok tok && cvTruthy cv) = false) :
    renderedText (replaceInParagraph repl cv p) =
      (renderedText p).take pos ++ v ++ (renderedText p).drop (pos + tok.length) ∧
    runsOnly (replaceInParagraph repl cv p).content = true := by
  obtain ⟨hmem, hposmin⟩ := pickMin_spec hpk
  obtain ⟨hrepl, hfind⟩ := mem_scanMatches.mp hmem
  have hph : hasPlaceholder repl (renderedText p) = true :=
    hasPlaceholder_true_of hrepl hfind
  have hne : p.content.isEmpty = false := by
    cases hc : p.content with
    | nil =>
      exfalso
      have hrt : renderedText p = [] := by
        unfold renderedText contentText
        rw [hc]
        rfl
      rw [hrt, findSub_nil_ne ht] at hfind
      cases hfind
    | cons a l => rfl
  rw [replaceInParagraph_eq_plainPath hph hne hpk hnh]
  exact plainPath_progress p pos tok v hro hfind ht

/-- C3: every mutation performed by _replace_in_paragraph, on the
plain-text path, the hyperlink path and every early-return path alike,
leaves the paragraph's ParagraphProperties block exactly as it was
before the rebuild: the pPr snapshot taken before clearing is restored
verbatim, so no fill operation or error path changes it. -/
theorem C3_pPr_preserved (repl : List (Str × Str)) (cv : Option CvData)
    (p : Paragraph) : (replaceInParagraph repl cv p).pPr = p.pPr := by
  by_cases h1 : hasPlaceholder repl (renderedText p) = false
  · rw [replaceInParagraph_no_ph h1]
  · have h1t : hasPlaceholder repl (renderedText p) = true := by simpa using h1
    by_cases h2 : p.content.isEmpty = true
    · simp [replaceInParagraph, h1t, h2]
    · have h2f : p.content.isEmpty = false := by simpa using h2
      cases hpk : pickMin (scanMatches repl (renderedText p)) with
      | none => simp [replaceInParagraph, h1t, h2f, hpk]
      | some m =>
        obtain ⟨pos, tok, v⟩ := m
        by_cases h4 : (isHlTok tok && cvTruthy cv) = true
        · cases cv with
          | none => simp [replaceInParagraph, h1t, h2f, hpk, h4]
          | some d =>
            rw [replaceInParagraph_eq_hlPath h1t h2f hpk h4]
            exact hlPath_pPr _ _ _ _ _ _
        · have h4f : (isHlTok tok && cvTruthy cv) = false := by simpa using h4
          rw [replaceInParagraph_eq_plainPath h1t h2f hpk h4f]
          exact plainPath_pPr _ _ _ _ _ _

/-- C7: when the chosen match's start offset is not a valid index into
the current character map (stale index), _replace_in_paragraph returns
the paragraph unchanged, raising nothing and mutating nothing. -/
theorem C7_stale_offset_noop (repl : List (Str × Str)) (cv : Option CvData)
    (p : Paragraph) (pos : Nat) (tok v : Str)
    (hpk : pickMin (scanMatches repl (renderedText p)) = some (pos, tok, v))
    (hge : (charMapOf p.content).length ≤ pos) :
    replaceInParagraph repl cv p = p := by
  have hgeInt : ((charMapOf p.content).length : Int) ≤ (pos : Int) := by
    exact_mod_cast hge
  by_cases h1 : hasPlaceholder repl (renderedText p) = false
  · exact replaceInParagraph_no_ph h1
  · have h1t : hasPlaceholder repl (renderedText p) = true := by simpa using h1
    by_cases h2 : p.content.isEmpty = true
    · simp [replaceInParagraph, h1t, h2]
    · have h2f : p.content.isEmpty = false := by simpa using h2
      by_cases h4 : (isHlTok tok && cvTruthy cv) = true
      · cases cv with
        | none => simp [replaceInParagraph, h1t, h2f, hpk, h4]
        | some d =>
          rw [replaceInParagraph_eq_hlPath h1t h2f hpk h4]
          exact hlPath_oob hgeInt
      · have h4f : (isHlTok tok && cvTruthy cv) = false := by simpa using h4
        rw [replaceInParagraph_eq_plainPath h1t h2f hpk h4f]
        exact plainPath_oob hgeInt

/-- Witness for C7: a hyperlink whose run holds two text nodes renders
ten characters while the character map carries only the first node's
two, so the found offset 2 is out of bounds and the call is a no-op. -/
theorem C7_stale_offset_noop_witness :
    pickMin (scanMatches mapName (renderedText paraStale)) =
      some (2, nameTok, "John".toList) ∧
    (charMapOf paraStale.content).length ≤ 2 ∧
    replaceInParagraph mapName none paraStale = paraStale :=
  ⟨by decide, by decide,
    C7_stale_offset_noop mapName none paraStale 2 nameTok ("John".toList)
      (by decide) (by decide)⟩

/-- C8: a paragraph whose rendered text contains no token of the map is
left untouched by _replace_in_paragraph and by the whole capped pass
loop, so re-running fill over already-filled paragraphs is a no-op. -/
theorem C8_clean_paragraph_noop (repl : List (Str × Str)) (cv : Option CvData)
    (p : Paragraph)
    (h : ∀ tv ∈ repl, findSub tv.1 (renderedText p) = none) :
    replaceInParagraph repl cv p = p ∧ fillPara repl cv p = p ∧
    ∀ n, fillLoop repl cv n p = p := by
  have hph := hasPlaceholder_false_of h
  exact ⟨replaceInParagraph_no_ph hph, fillLoop_stop hph maxIterations,
    fillLoop_stop hph⟩

/-- Witness for C8 at a concrete token-free paragraph. -/
theorem C8_clean_paragraph_noop_witness :
    (∀ tv ∈ mapName, findSub tv.1 (renderedText paraNoTok) = none) ∧
    fillPara mapName none paraNoTok = paraNoTok :=
  ⟨by decide, (C8_clean_paragraph_noop mapName none paraNoTok (by decide)).2.1⟩

/-- C9: fill_template drives every body paragraph and every table-cell
paragraph through the same pass loop, capped at maxIterations = 20
passes; the loop executes at most 20 passes and stops at once when no
token of the map occurs in the rendered text, so it always terminates. -/
theorem C9_pass_cap_terminates (cv : CvData) (doc : Doc) :
    (fillTemplate cv doc).paragraphs =
      doc.paragraphs.map (fillPara (buildReplacements cv) (some cv)) ∧
    (fillTemplate cv doc).tables =
      doc.tables.map (fun t =>
        { rows := t.rows.map (fun row => row.map (fun cell =>
            cell.map (fillPara (buildReplacements cv) (some cv)))) }) ∧
    maxIterations = 20 ∧
    ∀ (repl : List (Str × Str)) (cvo : Option CvData) (p : Paragraph),
      passCount repl cvo maxIterations p ≤ 20 ∧
      (hasPlaceholder repl (renderedText p) = false → fillPara repl cvo p = p) := by
  refine ⟨rfl, rfl, rfl, ?_⟩
  intro repl cvo p
  exact ⟨passCount_le repl cvo maxIterations p,
    fun h => fillLoop_stop h maxIterations⟩

/-- Witness for C9 at a concrete paragraph with no matching token. -/
theorem C9_pass_cap_terminates_witness :
    passCount mapGh none maxIterations paraNoTok ≤ 20 ∧
    fillPara mapGh none paraNoTok = paraNoTok := by
  have h := (C9_pass_cap_terminates cvGithub
    { paragraphs := [], tables := [] }).2.2.2 mapGh none paraNoTok
  exact ⟨h.1, h.2 (by decide)⟩

/-- C6: the scan collects, for each token of the map that occurs in
the rendered text, exactly its first-occurrence offset (findSub is the
first occurrence); the selected match is a member of that collection
with the lowest start offset; and on a runs-only paragraph the pass
rewrites the rendered text by substituting only that earliest match,
leaving every other character - hence every other match - in place. -/
theorem C6_scan_selects_earliest (repl : List (Str × Str)) (p : Paragraph) :
    (∀ pos tok v, (pos, tok, v) ∈ scanMatches repl (renderedText p) ↔
      ((tok, v) ∈ repl ∧ findSub tok (renderedText p) = some pos)) ∧
    (∀ tok pos, findSub tok (renderedText p) = some pos →
      OccursAt tok (renderedText p) pos ∧
      ∀ j < pos, ¬ OccursAt tok (renderedText p) j) ∧
    (∀ pos tok v, pickMin (scanMatches repl (renderedText p)) = some (pos, tok, v) →
      (pos, tok, v) ∈ scanMatches repl (renderedText p) ∧
      ∀ q ∈ scanMatches repl (renderedText p), pos ≤ q.1) ∧
    (∀ (cv : Option CvData) pos tok v,
      pickMin (scanMatches repl (renderedText p)) = some (pos, tok, v) →
      tok ≠ [] → (isHlTok tok && cvTruthy cv) = false → runsOnly p.content = true →
      renderedText (replaceInParagraph repl cv p) =
        (renderedText p).take pos ++ v ++ (renderedText p).drop (pos + tok.length)) := by
  refine ⟨fun pos tok v => mem_scanMatches, ?_, ?_, ?_⟩
  · intro tok pos hf
    exact ⟨findSub_occurs hf, findSub_least hf⟩
  · intro pos tok v hpk
    exact pickMin_spec hpk
  · intro cv pos tok v hpk ht hnh hro
    exact (replace_progress hro hpk ht hnh).1

/-- Witness for C6 at a concrete single-run paragraph: the NAME token
found at offset 6 is substituted there and nowhere else. -/
theorem C6_scan_selects_earliest_witness :
    renderedText (replaceInParagraph mapName none paraHello) =
      (renderedText paraHello).take 6 ++ "John".toList ++
        (renderedText paraHello).drop (6 + nameTok.length) :=
  (C6_scan_selects_earliest mapName paraHello).2.2.2 none 6 nameTok ("John".toList)
    (by decide) (by decide) (by decide) (by decide)

/-- C10: the hyperlink routing of the GITHUB and LINKEDIN tokens is
taken only when a truthy cv_data is supplied (the parameter defaults
to None); with a falsy cv_data the call behaves exactly as with None,
every token - the two designated ones included - goes through the
plain-text path, and a runs-only paragraph is rewritten with the
token's PlaceholderMap string value, producing no hyperlink element. -/
theorem C10_hyperlink_needs_cv (repl : List (Str × Str)) (cv : Option CvData)
    (p : Paragraph) (hcv : cvTruthy cv = false) :
    replaceInParagraph repl cv p = replaceInParagraph repl none p ∧
    (∀ pos tok v, pickMin (scanMatches repl (renderedText p)) = some (pos, tok, v) →
      tok ≠ [] → runsOnly p.content = true →
      renderedText (replaceInParagraph repl cv p) =
        (renderedText p).take pos ++ v ++ (renderedText p).drop (pos + tok.length) ∧
      runsOnly (replaceInParagraph repl cv p).content = true) := by
  constructor
  · cases cv with
    | none => rfl
    | some d =>
      have hd : d.isEmpty = true := by
        have hx := hcv
        simp [cvTruthy] at hx
        exact hx
      unfold replaceInParagraph
      simp only [cvTruthy, hd, Bool.not_true, Bool.and_false, Bool.false_eq_true,
        if_false]
  · intro pos tok v hpk ht hro
    exact replace_progress hro hpk ht (by simp [hcv])

/-- Witness for C10: with cv_data None the GITHUB token in a styled
run is replaced by its map value as plain text, and the rebuilt
paragraph still holds only plain runs. -/
theorem C10_hyperlink_needs_cv_witness :
    renderedText (replaceInParagraph mapGh none paraSibling) =
      (renderedText paraSibling).take 1 ++ "jdoe".toList ++
        (renderedText paraSibling).drop (1 + ghTok.length) ∧
    runsOnly (replaceInParagraph mapGh none paraSibling).content = true :=
  (C10_hyperlink_needs_cv mapGh none paraSibling rfl).2 1 ghTok ("jdoe".toList)
    (by decide) (by decide) (by decide)

/-- C5: _add_hyperlink prefixes a scheme-less URL with https://, keeps
a URL with an explicit scheme untouched only in that case, and builds
one run carrying the template's font name and size (when set and
truthy) plus single underline and the fixed color 0563C1; the GITHUB
and LINKEDIN tokens route to display texts Github and Linkedin with
the personal_info URL fields as targets. -/
theorem C5_hyperlink_construction (tmpl : Fmt) (url disp : Str) (d : CvData)
    (hn : tmpl.name ≠ some []) (hs : tmpl.size ≠ some 0)
    (hu1 : ("http://".toList).isPrefixOf url = false)
    (hu2 : ("https://".toList).isPrefixOf url = false) :
    (addHyperlink disp url tmpl).url = "https://".toList ++ url ∧
    (addHyperlink disp url tmpl).runs =
      [ { texts := [disp],
          fmt := { name := tmpl.name, size := tmpl.size, bold := none, italic := none,
                   underline := some true, color := some ("0563C1".toList) } } ] ∧
    (hlTarget ghTok d).1 = "Github".toList ∧
    (hlTarget liTok d).1 = "Linkedin".toList ∧
    (∀ pi, d.personal_info = some pi →
      (hlTarget ghTok d).2 = pi.github.getD [] ∧
      (hlTarget liTok d).2 = pi.linkedin.getD []) ∧
    (∀ f : Fmt, emitHl [Item.newHl disp f url] = [Elem.hyper (addHyperlink disp url f)]) := by
  have hnotli : ¬ (liTok = ghTok) := by decide
  refine ⟨?_, ?_, ?_, ?_, ?_, fun f => rfl⟩
  · unfold addHyperlink
    dsimp only
    rw [if_neg (by
      rw [not_or]
      constructor
      · intro hcon
        rw [hu1] at hcon
        cases hcon
      · intro hcon
        rw [hu2] at hcon
        cases hcon)]
  · have hname : (match tmpl.name with
        | some n => if n = [] then none else some n
        | none => none) = tmpl.name := by
      cases hnn : tmpl.name with
      | none => rfl
      | some n =>
        have hne : ¬ n = [] := fun h => hn (by rw [hnn, h])
        simp [hne]
    have hsize : (match tmpl.size with
        | some s => if s = 0 then none else some s
        | none => none) = tmpl.size := by
      cases hss : tmpl.size with
      | none => rfl
      | some s =>
        have hne : ¬ s = 0 := fun h => hs (by rw [hss, h])
        simp [hne]
    simp [addHyperlink, hu1, hu2, hname, hsize]
  · simp [hlTarget]
  · simp [hlTarget, hnotli]
  · intro pi hpi
    constructor
    · simp [hlTarget, hpi]
    · simp [hlTarget, hnotli, hpi]

/-- Witness for C5: profile value jdoe yields the target https://jdoe
and a run styled from the Arial template plus the fixed link style. -/
theorem C5_hyperlink_construction_witness :
    (addHyperlink ("Github".toList) ("jdoe".toList) fmtArial).url =
      "https://".toList ++ "jdoe".toList ∧
    (addHyperlink ("Github".toList) ("jdoe".toList) fmtArial).runs =
      [ { texts := ["Github".toList],
          fmt := { name := fmtArial.name, size := fmtArial.size, bold := none,
                   italic := none, underline := some true,
                   color := some ("0563C1".toList) } } ] ∧
    (hlTarget ghTok cvGithub).2 = "jdoe".toList := by
  have h := C5_hyperlink_construction fmtArial ("jdoe".toList) ("Github".toList)
    cvGithub (by decide) (by decide) (by decide) (by decide)
  refine ⟨h.1, h.2.1, ?_⟩
  rw [(h.2.2.2.2.1 { github := some ("jdoe".toList) } rfl).1]
  rfl

/-- C2 counterexample: resolving the GITHUB token through the
hyperlink path re-emits the sibling text A as a run that has lost the
source run's underline and color - only four of the six attributes
are copied on that path. -/
theorem C2_counterexample :
    fmtArial.underline = some true ∧ fmtArial.color = some ("FF0000".toList) ∧
    (replaceInParagraph mapGh (some cvGithub) paraSibling).content.get? 0 =
      some (Elem.run
        { text := ['A'],
          fmt := { name := some ("Arial".toList), size := some 11, bold := some true,
                   italic := none, underline := none, color := none } }) := by
  refine ⟨rfl, rfl, ?_⟩
  decide

/-- C2 amended: the plain-text rebuild loop copies font name, size,
bold, italic and underline outright, and copies color exactly when the
source carries an explicit truthy rgb value (an explicit black 000000
is the falsy integer zero and is dropped, and an unset color stays
unset); the hyperlink-path rebuild loop copies only font name, size,
bold and italic, leaving underline and color unset on the new runs. -/
theorem C2_attribute_copy_amended (t : Str) (src : Fmt) :
    ((makeRunPlain t src).text = t ∧
     (makeRunPlain t src).fmt.name = src.name ∧
     (makeRunPlain t src).fmt.size = src.size ∧
     (makeRunPlain t src).fmt.bold = src.bold ∧
     (makeRunPlain t src).fmt.italic = src.italic ∧
     (makeRunPlain t src).fmt.underline = src.underline) ∧
    ((∀ c, src.color = some c → rgbTruthy c = true →
        (makeRunPlain t src).fmt.color = some c) ∧
     (∀ c, src.color = some c → rgbTruthy c = false →
        (makeRunPlain t src).fmt.color = none) ∧
     (src.color = none → (makeRunPlain t src).fmt.color = none)) ∧
    ((makeRunHl t src).text = t ∧
     (makeRunHl t src).fmt =
       { name := src.name, size := src.size, bold := src.bold, italic := src.italic,
         underline := none, color := none }) := by
  refine ⟨⟨rfl, rfl, rfl, rfl, rfl, rfl⟩, ⟨?_, ?_, ?_⟩, rfl, rfl⟩
  · intro c hc htr
    simp [makeRunPlain, hc, htr]
  · intro c hc htr
    simp [makeRunPlain, hc, htr]
  · intro hc
    simp [makeRunPlain, hc]

/-- Witness for C2 amended: the truthy color FF0000 is copied by the
plain path, the falsy explicit black 000000 is dropped, and the
hyperlink path leaves underline unset. -/
theorem C2_attribute_copy_amended_witness :
    (makeRunPlain ("A".toList) fmtArial).fmt.color = some ("FF0000".toList) ∧
    (makeRunPlain ("A".toList) fmtBlack).fmt.color = none ∧
    (makeRunHl ("A".toList) fmtArial).fmt.underline = none :=
  ⟨(C2_attribute_copy_amended ("A".toList) fmtArial).2.1.1
      ("FF0000".toList) rfl (by decide),
   (C2_attribute_copy_amended ("A".toList) fmtBlack).2.1.2.1
      ("000000".toList) rfl (by decide),
   by rw [(C2_attribute_copy_amended ("A".toList) fmtArial).2.2.2]⟩

/-- C4 counterexample: with the skills section present but a field
absent, the tokens of the absent fields are missing from the map
entirely instead of mapping to the empty string. -/
theorem C4_counterexample :
    cvSkillsOnly.skills.isSome = true ∧
    lookupRepl (buildReplacements cvSkillsOnly)
      (wrap ("SKILLS_LANGUAGE_PROCESSING".toList)) = none ∧
    lookupRepl (buildReplacements cvSkillsOnly)
      (wrap ("SKILL_FRAME_TOOL".toList)) = none ∧
    lookupRepl (buildReplacements cvSkillsOnly)
      (wrap ("SKILLS_DATA_VIZ".toList)) = none := by
  decide

lemma lookupRepl_cons_ne (k1 v k : Str) {l : List (Str × Str)}
    (h : ¬ k1 = k) : lookupRepl ((k1, v) :: l) k = lookupRepl l k := by
  simp [lookupRepl, List.find?_cons, h]

lemma lookupRepl_cons_eq (k1 v k : Str) {l : List (Str × Str)}
    (h : k1 = k) : lookupRepl ((k1, v) :: l) k = some v := by
  simp [lookupRepl, List.find?_cons, h]

lemma lookupRepl_append_of_some {l1 l2 : List (Str × Str)} {k : Str} {x : Str}
    (h : lookupRepl l1 k = some x) : lookupRepl (l1 ++ l2) k = some x := by
  induction l1 with
  | nil => simp [lookupRepl] at h
  | cons a t ih =>
    obtain ⟨k1, v⟩ := a
    by_cases hk : k1 = k
    · rw [lookupRepl_cons_eq k1 v k hk] at h
      rw [List.cons_append, lookupRepl_cons_eq k1 v k hk]
      exact h
    · rw [lookupRepl_cons_ne k1 v k hk] at h
      rw [List.cons_append, lookupRepl_cons_ne k1 v k hk]
      exact ih h

lemma mem_enumBlocks {α : Type} {l : List α} {i : Nat} {e : α}
    (f : Nat → α → List (Str × Str)) (hget : l.get? i = some e)
    {x : Str × Str} (hx : x ∈ f (i + 1) e) :
    x ∈ ((l.enumFrom 1).map (fun q => f q.1 q.2)).flatten := by
  have henum : (l.enumFrom 1).get? i = some (1 + i, e) := by
    rw [List.get?_eq_getElem?, List.getElem?_enumFrom, ← List.get?_eq_getElem?, hget]
    rfl
  rw [Nat.add_comm 1 i] at henum
  exact List.mem_flatten.mpr
    ⟨f (i + 1) e, List.mem_map_of_mem _ (List.get?_mem henum), hx⟩

/-- C4 amended: for the personal_info, education, experience and
projects sections, a present parent section always yields its tokens,
with a missing optional field mapped to the empty string (the value
below is the empty string whenever the field is absent); the skills
section is the exception established by the counterexample - its
tokens are synthesized only when the corresponding field is present. -/
theorem C4_missing_fields_amended (cv : CvData) :
    (∀ pi, cv.personal_info = some pi →
      lookupRepl (buildReplacements cv) (wrap ("LOCATION".toList)) =
        some (pi.location.getD []) ∧
      lookupRepl (buildReplacements cv) (wrap ("EMAIL".toList)) =
        some (pi.email.getD []) ∧
      lookupRepl (buildReplacements cv) (wrap ("PHONE".toList)) =
        some (pi.phone.getD []) ∧
      lookupRepl (buildReplacements cv) (wrap ("GITHUB".toList)) =
        some (pi.github.getD []) ∧
      lookupRepl (buildReplacements cv) (wrap ("LINKEDIN".toList)) =
        some (pi.linkedin.getD [])) ∧
    (∀ es i e, cv.education = some es → es.get? i = some e →
      (wrap ("EDU_".toList ++ natStr (i + 1) ++ "_LOCATION".toList),
        e.location.getD []) ∈ buildReplacements cv ∧
      (wrap ("EDU_".toList ++ natStr (i + 1) ++ "_DEGREE".toList),
        e.degree.getD []) ∈ buildReplacements cv ∧
      (wrap ("EDU_".toList ++ natStr (i + 1) ++ "_DATE".toList),
        datePick e.date e.start_date e.end_date) ∈ buildReplacements cv ∧
      (wrap ("EDU_".toList ++ natStr (i + 1) ++ "_COURSES".toList),
        coursesVal e) ∈ buildReplacements cv) ∧
    (∀ es i e, cv.experience = some es → es.get? i = some e →
      (wrap ("EXP_".toList ++ natStr (i + 1) ++ "_COMPANY".toList),
        e.company.getD []) ∈ buildReplacements cv ∧
      (wrap ("EXP_".toList ++ natStr (i + 1) ++ "_LOCATION".toList),
        e.location.getD []) ∈ buildReplacements cv ∧
      (wrap ("EXP_".toList ++ natStr (i + 1) ++ "_TITLE".toList),
        e.title.getD []) ∈ buildReplacements cv ∧
      (wrap ("EXP_".toList ++ natStr (i + 1) ++ "_DATE".toList),
        datePick e.date e.start_date e.end_date) ∈ buildReplacements cv ∧
      (e.achievements = none →
        (wrap ("EXP_".toList ++ natStr (i + 1) ++ "_ACHIEVEMENTS".toList), []) ∈
          buildReplacements cv)) ∧
    (∀ ps i q, cv.projects = some ps → ps.get? i = some q →
      (wrap ("PROJ_".toList ++ natStr (i + 1) ++ "_NAME".toList),
        q.name.getD []) ∈ buildReplacements cv ∧
      (wrap ("PROJ_".toList ++ natStr (i + 1) ++ "_DATE".toList),
        q.date.getD []) ∈ buildReplacements cv ∧
      (q.descriptions = none → q.description = none →
        (wrap ("PROJ_".toList ++ natStr (i + 1) ++ "_DESC".toList), []) ∈
          buildReplacements cv)) := by
  refine ⟨?_, ?_, ?_, ?_⟩
  · intro pi hpi
    have hpp : personalPart cv =
        [ (wrap ("NAME".toList), pi.name.getD []),
          (wrap ("Name".toList), pi.name.getD []),
          (wrap ("LOCATION".toList), pi.location.getD []),
          (wrap ("EMAIL".toList), pi.email.getD []),
          (wrap ("PHONE".toList), pi.phone.getD []),
          (wrap ("GITHUB".toList), pi.github.getD []),
          (wrap ("LINKEDIN".toList), pi.linkedin.getD []) ] := by
      unfold personalPart
      rw [hpi]
    refine ⟨?_, ?_, ?_, ?_, ?_⟩ <;>
        (unfold buildReplacements
         apply lookupRepl_append_of_some
         apply lookupRepl_append_of_some
         apply lookupRepl_append_of_some
         apply lookupRepl_append_of_some
         rw [hpp])
    · rw [
        lookupRepl_cons_ne (wrap ("NAME".toList)) _ (wrap ("LOCATION".toList)) (by decide),
        lookupRepl_cons_ne (wrap ("Name".toList)) _ (wrap ("LOCATION".toList)) (by decide),
        lookupRepl_cons_eq (wrap ("LOCATION".toList)) _ (wrap ("LOCATION".toList)) rfl]
    · rw [
        lookupRepl_cons_ne (wrap ("NAME".toList)) _ (wrap ("EMAIL".toList)) (by decide),
        lookupRepl_cons_ne (wrap ("Name".toList)) _ (wrap ("EMAIL".toList)) (by decide),
        lookupRepl_cons_ne (wrap ("LOCATION".toList)) _ (wrap ("EMAIL".toList)) (by decide),
        lookupRepl_cons_eq (wrap ("EMAIL".toList)) _ (wrap ("EMAIL".toList)) rfl]
    · rw [
        lookupRepl_cons_ne (wrap ("NAME".toList)) _ (wrap ("PHONE".toList)) (by decide),
        lookupRepl_cons_ne (wrap ("Name".toList)) _ (wrap ("PHONE".toList)) (by decide),
        lookupRepl_cons_ne (wrap ("LOCATION".toList)) _ (wrap ("PHONE".toList)) (by decide),
        lookupRepl_cons_ne (wrap ("EMAIL".toList)) _ (wrap ("PHONE".toList)) (by decide),
        lookupRepl_cons_eq (wrap ("PHONE".toList)) _ (wrap ("PHONE".toList)) rfl]
    · rw [
        lookupRepl_cons_ne (wrap ("NAME".toList)) _ (wrap ("GITHUB".toList)) (by decide),
        lookupRepl_cons_ne (wrap ("Name".toList)) _ (wrap ("GITHUB".toList)) (by decide),
        lookupRepl_cons_ne (wrap ("LOCATION".toList)) _ (wrap ("GITHUB".toList)) (by decide),
        lookupRepl_cons_ne (wrap ("EMAIL".toList)) _ (wrap ("GITHUB".toList)) (by decide),
        lookupRepl_cons_ne (wrap ("PHONE".toList)) _ (wrap ("GITHUB".toList)) (by decide),
        lookupRepl_cons_eq (wrap ("GITHUB".toList)) _ (wrap ("GITHUB".toList)) rfl]
    · rw [
        lookupRepl_cons_ne (wrap ("NAME".toList)) _ (wrap ("LINKEDIN".toList)) (by decide),
        lookupRepl_cons_ne (wrap ("Name".toList)) _ (wrap ("LINKEDIN".toList)) (by decide),
        lookupRepl_cons_ne (wrap ("LOCATION".toList)) _ (wrap ("LINKEDIN".toList)) (by decide),
        lookupRepl_cons_ne (wrap ("EMAIL".toList)) _ (wrap ("LINKEDIN".toList)) (by decide),
        lookupRepl_cons_ne (wrap ("PHONE".toList)) _ (wrap ("LINKEDIN".toList)) (by decide),
        lookupRepl_cons_ne (wrap ("GITHUB".toList)) _ (wrap ("LINKEDIN".toList)) (by decide),
        lookupRepl_cons_eq (wrap ("LINKEDIN".toList)) _ (wrap ("LINKEDIN".toList)) rfl]
  · intro es i e hes hi
    have hmem : ∀ x ∈ eduBlock (i + 1) e, x ∈ buildReplacements cv := by
      intro x hx
      have hedu : x ∈ eduPart cv := by
        unfold eduPart
        rw [hes]
        exact mem_enumBlocks eduBlock hi hx
      unfold buildReplacements
      simp only [List.mem_append]
      tauto
    refine ⟨?_, ?_, ?_, ?_⟩ <;> apply hmem <;> simp [eduBlock]
  · intro es i e hes hi
    have hmem : ∀ x ∈ expBlock (i + 1) e, x ∈ buildReplacements cv := by
      intro x hx
      have hexp : x ∈ expPart cv := by
        unfold expPart
        rw [hes]
        exact mem_enumBlocks expBlock hi hx
      unfold buildReplacements
      simp only [List.mem_append]
      tauto
    refine ⟨?_, ?_, ?_, ?_, ?_⟩
    · apply hmem; simp [expBlock]
    · apply hmem; simp [expBlock]
    · apply hmem; simp [expBlock]
    · apply hmem; simp [expBlock]
    · intro hach
      apply hmem
      unfold expBlock
      rw [hach]
      simp [joinSep]
  · intro ps i q hps hi
    have hmem : ∀ x ∈ projBlock (i + 1) q, x ∈ buildReplacements cv := by
      intro x hx
      have hpr : x ∈ projPart cv := by
        unfold projPart
        rw [hps]
        exact mem_enumBlocks projBlock hi hx
      unfold buildReplacements
      simp only [List.mem_append]
      tauto
    refine ⟨?_, ?_, ?_⟩
    · apply hmem; simp [projBlock]
    · apply hmem; simp [projBlock]
    · intro hd1 hd2
      apply hmem
      unfold projBlock
      rw [hd1, hd2]
      simp [joinSep]

/-- Witness for C4 amended: a bare education record still gets its
LOCATION token, mapped to the empty string. -/
theorem C4_missing_fields_amended_witness :
    cvEduOnly.education = some [eduBare] ∧
    (wrap ("EDU_".toList ++ natStr 1 ++ "_LOCATION".toList), []) ∈
      buildReplacements cvEduOnly :=
  ⟨rfl, ((C4_missing_fields_amended cvEduOnly).2.1 [eduBare] 0 eduBare rfl rfl).1⟩

/-- C1 counterexample: the NAME token is in the map and occurs in the
paragraph's rendered text, yet after the full capped fill loop it
still occurs there - the token sits inside an existing hyperlink and
the paragraph has no plain run to serve as formatting template, so
every pass is a no-op. -/
theorem C1_counterexample :
    lookupRepl mapName nameTok = some ("John".toList) ∧
    (findSub nameTok (renderedText paraHyperOnly)).isSome = true ∧
    fillPara mapName none paraHyperOnly = paraHyperOnly ∧
    (findSub nameTok (renderedText (fillPara mapName none paraHyperOnly))).isSome = true := by
  have hfix : replaceInParagraph mapName none paraHyperOnly = paraHyperOnly := by
    decide
  have hloop : ∀ n, fillLoop mapName none n paraHyperOnly = paraHyperOnly := by
    intro n
    induction n with
    | zero => rfl
    | succ k ih =>
      unfold fillLoop
      split
      · rw [hfix]
        exact ih
      · rfl
  refine ⟨by decide, by decide, hloop maxIterations, ?_⟩
  rw [show fillPara mapName none paraHyperOnly = paraHyperOnly from hloop maxIterations]
  decide

/-- C1 amended: after fill_template completes, every paragraph of the
body and of every table cell either contains no occurrence of any map
token in its rendered text, or it exhausted the full 20-pass safety
cap without reaching a token-free state (which happens when a pass
cannot make progress - for example a token inside a hyperlink with no
plain run available - or when more than 20 resolutions are needed). -/
theorem C1_exhaustive_or_cap (cv : CvData) (doc : Doc) :
    (∀ q ∈ (fillTemplate cv doc).paragraphs,
      hasPlaceholder (buildReplacements cv) (renderedText q) = false ∨
      ∃ p ∈ doc.paragraphs,
        q = fillPara (buildReplacements cv) (some cv) p ∧
        passCount (buildReplacements cv) (some cv) maxIterations p = maxIterations) ∧
    (∀ t ∈ (fillTemplate cv doc).tables, ∀ row ∈ t.rows, ∀ cell ∈ row, ∀ q ∈ cell,
      hasPlaceholder (buildReplacements cv) (renderedText q) = false ∨
      ∃ p, q = fillPara (buildReplacements cv) (some cv) p ∧
        passCount (buildReplacements cv) (some cv) maxIterations p = maxIterations) := by
  constructor
  · intro q hq
    rw [show (fillTemplate cv doc).paragraphs =
        doc.paragraphs.map (fillPara (buildReplacements cv) (some cv)) from rfl] at hq
    rcases List.mem_map.mp hq with ⟨p, hp, rfl⟩
    rcases fillLoop_resolved_or_cap (buildReplacements cv) (some cv) maxIterations p
      with hres | hcap
    · exact Or.inl hres
    · exact Or.inr ⟨p, hp, rfl, hcap⟩
  · intro t ht row hrow cell hcell q hq
    rw [show (fillTemplate cv doc).tables =
        doc.tables.map (fun t0 =>
          ({ rows := t0.rows.map (fun r => r.map (fun c =>
              c.map (fillPara (buildReplacements cv) (some cv)))) } : Table)) from rfl] at ht
    rcases List.mem_map.mp ht with ⟨t0, ht0, rfl⟩
    simp only at hrow
    rcases List.mem_map.mp hrow with ⟨row0, hrow0, rfl⟩
    rcases List.mem_map.mp hcell with ⟨cell0, hcell0, rfl⟩
    rcases List.mem_map.mp hq with ⟨p, hp, rfl⟩
    rcases fillLoop_resolved_or_cap (buildReplacements cv) (some cv) maxIterations p
      with hres | hcap
    · exact Or.inl hres
    · exact Or.inr ⟨p, rfl, hcap⟩

/-- Witness for C1 amended, at the hyperlink-trapped document. -/
theorem C1_exhaustive_or_cap_witness :
    hasPlaceholder (buildReplacements cvGithub)
      (renderedText (fillPara (buildReplacements cvGithub) (some cvGithub)
        paraHyperOnly)) = false ∨
    ∃ p ∈ docHyperOnly.paragraphs,
      fillPara (buildReplacements cvGithub) (some cvGithub) paraHyperOnly =
        fillPara (buildReplacements cvGithub) (some cvGithub) p ∧
      passCount (buildReplacements cvGithub) (some cvGithub) maxIterations p =
        maxIterations :=
  (C1_exhaustive_or_cap cvGithub docHyperOnly).1 _
    (by simp [fillTemplate, docHyperOnly])
